import Mathlib

/-!
Verification development for the incremental batch fetcher of
`india-environmental-approvals` (`request.py`, class `ParallelDownloader`).

The stateful parts of the program are embedded shallowly:

* the on-disk state is a finite map from paths to file contents,
  represented as an association list (`FS`);
* JSON parsing (`json.loads` / `json.load`) is an external library
  function, so definitions are parameterised by a parser
  `pj : String → Option Jobj` returning the object's fields on success;
* ISO-8601 timestamp strings handed to `datetime.fromisoformat` are
  modelled by `TS`: `TS.good t` is a string parsing to time `t`
  (compared as integers), `TS.bad` a non-empty string that raises
  `ValueError`, `TS.empty` the empty (falsy) string;
* each network attempt is summarised by a `FetchEvent`: a network-level
  error, or a reply with a status code, body, and flags telling whether
  the temp-file write and the rename system calls succeed.
-/

namespace Fetcher

/-- On-disk state: association list from path to file content. -/
def FS : Type := List (String × String)

instance : DecidableEq FS := by
  unfold FS
  infer_instance

/-- Look up the content stored at path `p` (first binding wins). -/
def FS.find : FS → String → Option String
  | [], _ => none
  | (q, v) :: rest, p => if p = q then some v else FS.find rest p

/-- Remove path `p` from the file system (models `os.remove`). -/
def FS.eraseP (fs : FS) (p : String) : FS :=
  fs.filter (fun kv => decide (kv.1 ≠ p))

/-- Write content `v` at path `p` (models writing a whole file). -/
def FS.setP (fs : FS) (p v : String) : FS :=
  (p, v) :: fs.eraseP p

/-- Model of a timestamp string as consumed by
`datetime.fromisoformat(... .replace('Z', '+00:00'))`: it either parses
to a comparable instant, fails with `ValueError`, or is the empty
(falsy) string. -/
inductive TS where
  | empty
  | bad
  | good (t : Int)
deriving DecidableEq

/-- Python truthiness of the modelled timestamp string. -/
def TS.truthy : TS → Bool
  | .empty => false
  | _ => true

/-- `datetime.fromisoformat` after the `Z → +00:00` substitution:
succeeds exactly on `TS.good`. -/
def parseIso : TS → Option Int
  | .good t => some t
  | _ => none

/-- The fields of a parsed JSON object, restricted to the string-valued
fields the timestamp extraction can look at. -/
def Jobj : Type := List (String × TS)

instance : DecidableEq Jobj := by
  unfold Jobj
  infer_instance

/-- First binding for key `f` in an association list of fields
(models Python `dict` membership and indexing). -/
def lookupTS : List (String × TS) → String → Option TS
  | [], _ => none
  | (k, v) :: rest, f => if f = k then some v else lookupTS rest f

/-- The ASCII whitespace stripped by Python `str.strip()`. -/
def pySpace (c : Char) : Bool :=
  c = ' ' || c = '\t' || c = '\n' || c = '\x0d' || c = '\x0b' || c = '\x0c'

/-- Python `str.strip()`: drop leading and trailing whitespace. -/
def pyStrip (s : String) : String :=
  String.mk (((s.data.dropWhile pySpace).reverse.dropWhile pySpace).reverse)

/-- Python `str.split('\t')` on the underlying characters. -/
def splitTab : List Char → List (List Char)
  | [] => [[]]
  | '\t' :: rest => [] :: splitTab rest
  | c :: rest =>
    match splitTab rest with
    | [] => [[c]]
    | g :: gs => (c :: g) :: gs

/-- Python `str.split('\t')`. -/
def pySplitTab (s : String) : List String :=
  (splitTab s.data).map String.mk

/-- Python `str.startswith('#')`. -/
def startsHash (s : String) : Bool :=
  match s.data with
  | '#' :: _ => true
  | _ => false

/-- Python `str.lower()` (ASCII case folding). -/
def pyLower (s : String) : String :=
  String.mk (s.data.map Char.toLower)

/-- Case-insensitive substring test: models Python
`needle in haystack.lower()` for a lowercase needle. -/
def hasSub (hay needle : String) : Bool :=
  (pyLower hay).data.tails.any (fun t => needle.data.isPrefixOf t)

/-- `validate_file_content` body on in-memory content (request.py,
lines 138–146): JSON must parse; KML must contain `<kml` or
`<placemark` case-insensitively; anything else must be non-blank. -/
def contentValid (ct : String) (pj : String → Option Jobj) (c : String) : Bool :=
  if ct = "json" then (pj c).isSome
  else if ct = "kml" then hasSub c "<kml" || hasSub c "<placemark"
  else decide (0 < (pyStrip c).length)

/-- `validate_file_content` (request.py, lines 132–149): opening a
missing file raises `IOError`, caught and turned into `False`. -/
def validate_file_content (ct : String) (pj : String → Option Jobj)
    (fs : FS) (p : String) : Bool :=
  match fs.find p with
  | none => false
  | some c => contentValid ct pj c

/-- `os.path.exists(p) and os.path.getsize(p) > 0`
(request.py, line 156). -/
def file_exists (fs : FS) (p : String) : Bool :=
  match fs.find p with
  | none => false
  | some c => decide (0 < c.length)

/-- `os.path.basename` on POSIX: the part after the last `/`. -/
def basename (p : String) : String :=
  String.mk ((p.data.reverse.takeWhile (fun c => decide (c ≠ '/'))).reverse)

/-- Python `str.replace('.json', '')`: delete every leftmost,
non-overlapping occurrence of the five characters `.json`. -/
def stripJsonOcc : List Char → List Char
  | '.' :: 'j' :: 's' :: 'o' :: 'n' :: rest => stripJsonOcc rest
  | c :: rest => c :: stripJsonOcc rest
  | [] => []

/-- `proposal_id = os.path.basename(output_path).replace('.json', '')`
(request.py, lines 62–63). -/
def proposalId (outputPath : String) : String :=
  String.mk (stripJsonOcc (basename outputPath).toList)

/-- The ordered list of recognised embedded-timestamp field names
(request.py, line 79). -/
def timestampFields : List String :=
  ["app_updated_on", "Application Updated On", "updated_on"]

/-- The `for field in [...]` loop: value of the first *present* field,
whatever that value is (request.py, lines 78–82). -/
def firstTsField (obj : Jobj) : Option TS :=
  timestampFields.findSome? (fun f => lookupTS obj f)

/-- The inner `try` of `_should_redownload_file` (request.py,
lines 86–95): parse the index timestamp, then the embedded one; a
`ValueError` from either parse yields `True`; otherwise re-download
exactly when the index instant is strictly later. -/
def cmpStale (cur ex : TS) : Bool :=
  match parseIso cur with
  | none => true
  | some c =>
    match parseIso ex with
    | none => true
    | some e => decide (e < c)

/-- `_should_redownload_file` (request.py, lines 56–102). Every fall-off
path of the Python function returns `False`; a file whose JSON cannot be
loaded hits the outer `except` and returns `False`; a present but falsy
embedded timestamp skips the comparison and returns `False`. -/
def should_redownload (tsData : List (String × TS))
    (pj : String → Option Jobj) (fs : FS) (outputPath : String) : Bool :=
  if tsData.isEmpty then false
  else
    match lookupTS tsData (proposalId outputPath) with
    | none => false
    | some cur =>
      match fs.find outputPath with
      | none => false
      | some content =>
        match pj content with
        | none => false
        | some obj =>
          match firstTsField obj with
          | none => false
          | some ex => if ex.truthy then cmpStale cur ex else false

/-- The three-way classification of one manifest entry produced by the
branch structure of `filter_existing_files` (request.py, lines 161–167). -/
inductive Classification where
  | skip
  | forceRefresh
  | fetch
deriving DecidableEq

/-- The branch of `filter_existing_files` taken for one entry:
`skip` when the file exists non-empty, validates, and is not stale;
`forceRefresh` when it exists and is stale; `fetch` otherwise. -/
def classify (ct : String) (pj : String → Option Jobj)
    (tsData : List (String × TS)) (fs : FS) (p : String) : Classification :=
  let fe := file_exists fs p
  let redl := should_redownload tsData pj fs p
  if fe && validate_file_content ct pj fs p && !redl then .skip
  else if fe && redl then .forceRefresh
  else .fetch

/-- `filter_existing_files` (request.py, lines 151–169): returns the
entries still to download, in manifest order, together with the
`skipped` and `force_redownloaded` counter increments. -/
def filter_existing_files (ct : String) (pj : String → Option Jobj)
    (tsData : List (String × TS)) (fs : FS) :
    List (String × String) → List (String × String) × Nat × Nat
  | [] => ([], 0, 0)
  | t :: rest =>
    let r := filter_existing_files ct pj tsData fs rest
    match classify ct pj tsData fs t.2 with
    | .skip => (r.1, r.2.1 + 1, r.2.2)
    | .forceRefresh => (t :: r.1, r.2.1, r.2.2 + 1)
    | .fetch => (t :: r.1, r.2.1, r.2.2)

/-- Summary of one network attempt as observed by `download_single`:
either the request/`makedirs` machinery raises (`netError`), or a reply
arrives with a `status` code and `body`; `writeOk` tells whether writing
the temp file succeeds (`part` being the partial content left behind on
failure) and `renameOk` whether the final `os.rename` succeeds. -/
inductive FetchEvent where
  | netError
  | reply (status : Nat) (body : String) (writeOk : Bool) (part : String)
      (renameOk : Bool)
deriving DecidableEq

/-- The body of the `reply` event, `""` for a network error. -/
def FetchEvent.bodyOf : FetchEvent → String
  | .netError => ""
  | .reply _ b _ _ _ => b

/-- The response-body validation inside `download_single` (request.py,
lines 189–198): JSON must parse and KML must contain a root marker, but
any other content type is written without validation. -/
def bodyOkDL (ct : String) (pj : String → Option Jobj) (b : String) : Bool :=
  if ct = "json" then (pj b).isSome
  else if ct = "kml" then hasSub b "<kml" || hasSub b "<placemark"
  else true

/-- `download_single` (request.py, lines 171–216), with the locator
abstracted away (it only selects the reply, which is the `FetchEvent`
argument here). Returns the success flag and the list of successive
file-system states after each mutating system call:
* network error → the `except` handler removes the temp file;
* non-200 status, or invalid body → `return False` with no mutation;
* failed temp write → partial temp content, then `except` removes it;
* failed rename → full temp content, then `except` removes it;
* success → temp written, then atomically renamed onto the destination. -/
def download_single (ct : String) (pj : String → Option Jobj)
    (fs : FS) (dest : String) (ev : FetchEvent) : Bool × List FS :=
  let temp := dest ++ ".tmp"
  match ev with
  | .netError => (false, [fs.eraseP temp])
  | .reply st body wOk part rOk =>
    if st = 200 then
      if bodyOkDL ct pj body then
        if wOk then
          if rOk then
            (true, [fs.setP temp body, ((fs.setP temp body).eraseP temp).setP dest body])
          else
            (false, [fs.setP temp body, (fs.setP temp body).eraseP temp])
        else
          (false, [fs.setP temp part, (fs.setP temp part).eraseP temp])
      else (false, [])
    else (false, [])

/-- Final file system after a `download_single` trace. -/
def finalFS (fs : FS) (tr : List FS) : FS :=
  tr.getLastD fs

/-- Sequential composition of the fetch workers of a run over the
(task, network outcome) pairs, accumulating the `downloaded` and
`failed` counters exactly as `download_single` / `download_batch`
do (request.py, lines 205, 228–230). -/
def runDownloads (ct : String) (pj : String → Option Jobj) :
    FS → List ((String × String) × FetchEvent) → FS × Nat × Nat
  | fs, [] => (fs, 0, 0)
  | fs, (t, ev) :: rest =>
    let d := download_single ct pj fs t.2 ev
    let fs1 := finalFS fs d.2
    let r := runDownloads ct pj fs1 rest
    (r.1, (if d.1 then 1 else 0) + r.2.1, (if d.1 then 0 else 1) + r.2.2)

/-- Outcome of one whole run of `main`: final disk state plus the four
counters of the run report. -/
structure RunResult where
  fs : FS
  downloaded : Nat
  skipped : Nat
  failed : Nat
  force : Nat
deriving DecidableEq

/-- One run of the fetcher (`main`, request.py, lines 304–331): parse
results are filtered against the disk, and the surviving tasks are
downloaded, each consuming one `FetchEvent` from `evs` in order. -/
def runOnce (ct : String) (pj : String → Option Jobj)
    (tsData : List (String × TS)) (fs : FS)
    (tasks : List (String × String)) (evs : List FetchEvent) : RunResult :=
  let f := filter_existing_files ct pj tsData fs tasks
  let r := runDownloads ct pj fs (f.1.zip evs)
  ⟨r.1, r.2.1, f.2.1, r.2.2, f.2.2⟩

/-- Python `random.randint(a, b)` for `a ≤ b`: some value in the closed
interval `[a, b]`, here determined by the ambient random draw `r`. -/
def randint (a b r : Nat) : Nat :=
  a + r % (b - a + 1)

/-- The batch-size computation of `process_downloads` (request.py,
lines 256–258): clamp both bounds to the remaining pool, then draw
inclusively between them. -/
def batchSize (minBatch maxBatch remaining r : Nat) : Nat :=
  randint (min minBatch remaining) (min maxBatch remaining) r

/-- Status of one fetch worker relative to the concurrency gate
(`async with self.semaphore`, request.py, line 173): not yet at the
gate, holding a slot with its request in flight, or finished (slot
released on the way out of the `async with`). -/
inductive WStatus where
  | pending
  | holding
  | finished
deriving DecidableEq

/-- State of the cooperative scheduler: free slots of the
`asyncio.Semaphore(max_concurrent)` plus the status of each worker. -/
structure GateState where
  avail : Nat
  ws : List WStatus
deriving DecidableEq

/-- Initial state of a batch of `k` workers against a semaphore
initialised with `n` slots (request.py, line 30). -/
def gateInit (n k : Nat) : GateState :=
  ⟨n, List.replicate k .pending⟩

/-- Interleaved execution steps: a worker may pass the gate only when a
slot is free, and the `async with` block releases the slot on every
exit path when the worker finishes. -/
inductive GateStep : GateState → GateState → Prop
  | acquire (a : Nat) (ws : List WStatus) (i : Nat)
      (h : ws.get? i = some .pending) :
      GateStep ⟨a + 1, ws⟩ ⟨a, ws.set i .holding⟩
  | release (a : Nat) (ws : List WStatus) (i : Nat)
      (h : ws.get? i = some .holding) :
      GateStep ⟨a, ws⟩ ⟨a + 1, ws.set i .finished⟩

/-- Number of workers currently past the gate with a request in flight. -/
def holdingCount (ws : List WStatus) : Nat :=
  ws.countP (fun w => decide (w = .holding))

/-- States reachable by the scheduler from a fresh batch of `k` workers
with `max_concurrent = n`. -/
def GateReach (n k : Nat) (s : GateState) : Prop :=
  Relation.ReflTransGen GateStep (gateInit n k) s

/-- The Manifest Reader's per-line processing (`parse_url_file` loop,
request.py, lines 110–121): strip the line; drop blanks and `#`
comments; tab-split; warn (second component) and skip on a field count
other than two; otherwise keep the stripped pair, in input order. -/
def parseLines : List String → List (String × String) × Nat
  | [] => ([], 0)
  | l :: rest =>
    let r := parseLines rest
    let s := pyStrip l
    if s = "" || startsHash s then r
    else
      match pySplitTab s with
      | [u, p] => ((pyStrip u, pyStrip p) :: r.1, r.2)
      | _ => (r.1, r.2 + 1)

/-- `parse_url_file` (request.py, lines 104–130): an unreadable manifest
(`none`) exits the process with status 1; a readable one always yields
its well-formed entries and warning count. -/
def parse_url_file : Option (List String) → Except Nat (List (String × String) × Nat)
  | none => .error 1
  | some ls => .ok (parseLines ls)

/-- Samples of the external JSON parser used to instantiate witnesses:
`"OBJ"` parses to an object with no fields, `"TSOBJ"` to an object whose
`app_updated_on` field parses to instant 1; everything else is invalid. -/
def pjSample : String → Option Jobj :=
  fun s =>
    if s = "OBJ" then some []
    else if s = "TSOBJ" then some [("app_updated_on", TS.good 1)]
    else none

/-- Everything the Cache Validator demands of a cached artifact: present,
non-empty, and structurally valid for the content kind. -/
def goodFile (ct : String) (pj : String → Option Jobj) (fs : FS) (p : String) : Bool :=
  file_exists fs p && validate_file_content ct pj fs p

/-- Modelled from the spec: `resource_id` as section 3 describes it, the
destination filename with its (one trailing) extension stripped. -/
def resourceIdSpec (p : String) : String :=
  let cs := (basename p).toList
  if cs.contains '.' then
    String.mk (((cs.reverse.dropWhile (fun c => decide (c ≠ '.'))).drop 1).reverse)
  else String.mk cs

/-- Occurrence test for a character pattern inside a character list. -/
def hasOcc (pat l : List Char) : Bool :=
  l.tails.any (fun t => pat.isPrefixOf t)

theorem FS.find_cons (k v : String) (rest : FS) (q : String) :
    FS.find ((k, v) :: rest) q = if q = k then some v else FS.find rest q := rfl

theorem FS.find_eraseP_self (fs : FS) (p : String) :
    (fs.eraseP p).find p = none := by
  induction fs with
  | nil => rfl
  | cons kv rest ih =>
    obtain ⟨k, v⟩ := kv
    show FS.find (List.filter _ ((k, v) :: rest)) p = none
    rw [List.filter_cons]
    by_cases hkp : k = p
    · rw [if_neg (by simp [hkp])]
      exact ih
    · rw [if_pos (by simp [hkp])]
      rw [FS.find_cons, if_neg (fun h => hkp h.symm)]
      exact ih

theorem FS.find_eraseP_ne (fs : FS) (p q : String) (h : q ≠ p) :
    (fs.eraseP p).find q = fs.find q := by
  induction fs with
  | nil => rfl
  | cons kv rest ih =>
    obtain ⟨k, v⟩ := kv
    show FS.find (List.filter _ ((k, v) :: rest)) q = _
    rw [List.filter_cons, FS.find_cons]
    by_cases hkp : k = p
    · rw [if_neg (by simp [hkp])]
      rw [if_neg (fun hqk => h (hqk.trans hkp))]
      exact ih
    · rw [if_pos (by simp [hkp])]
      rw [FS.find_cons]
      by_cases hqk : q = k
      · rw [if_pos hqk, if_pos hqk]
      · rw [if_neg hqk, if_neg hqk]
        exact ih

theorem FS.find_setP_self (fs : FS) (p v : String) :
    (fs.setP p v).find p = some v := by
  show FS.find ((p, v) :: fs.eraseP p) p = some v
  rw [FS.find_cons, if_pos rfl]

theorem FS.find_setP_ne (fs : FS) (p v q : String) (h : q ≠ p) :
    (fs.setP p v).find q = fs.find q := by
  show FS.find ((p, v) :: fs.eraseP p) q = _
  rw [FS.find_cons, if_neg h]
  exact fs.find_eraseP_ne p q h

theorem temp_ne_dest (d : String) : d ++ ".tmp" ≠ d := by
  intro h
  have hlen : (d ++ ".tmp").length = d.length := congrArg String.length h
  have h4 : (".tmp" : String).length = 4 := rfl
  rw [String.length_append, h4] at hlen
  omega

theorem str_len_pos (s : String) (h : s ≠ "") : 0 < s.length := by
  cases s with
  | mk data =>
    cases data with
    | nil => exact absurd rfl h
    | cons c cs => simp [String.length]

/-- One well-formed manifest line's contribution (blank, comment, and
malformed lines contribute nothing). -/
def goodLine (l : String) : Option (String × String) :=
  let s := pyStrip l
  if s = "" || startsHash s then none
  else
    match pySplitTab s with
    | [u, p] => some (pyStrip u, pyStrip p)
    | _ => none

/-- A line that draws a malformed-line warning. -/
def badLine (l : String) : Bool :=
  let s := pyStrip l
  if s = "" || startsHash s then false
  else
    match pySplitTab s with
    | [_, _] => false
    | _ => true

theorem parseLines_characterisation (ls : List String) :
    (parseLines ls).1 = ls.filterMap goodLine ∧
    (parseLines ls).2 = ls.countP badLine := by
  induction ls with
  | nil => exact ⟨rfl, rfl⟩
  | cons l rest ih =>
    simp only [parseLines, List.filterMap_cons, List.countP_cons, goodLine, badLine]
    by_cases hb : (pyStrip l = "" || startsHash (pyStrip l)) = true
    · simp only [hb, if_true]
      exact ⟨ih.1, by simp [ih.2]⟩
    · simp only [Bool.not_eq_true] at hb
      simp only [hb, Bool.false_eq_true, if_false]
      rcases hsp : pySplitTab (pyStrip l) with _ | ⟨u, _ | ⟨p, _ | _⟩⟩ <;>
        simp [ih.1, ih.2]

/-- C5: the Manifest Reader ignores blank lines and `#` comments, skips
(with a warning) every line whose tab-separated field count is not two
while keeping the well-formed entries in input order, and exits with a
non-zero status exactly when the manifest cannot be read at all. -/
theorem manifest_reader_tolerant :
    (parse_url_file none = .error 1) ∧
    (∀ ls, parse_url_file (some ls) = .ok (parseLines ls)) ∧
    (∀ ls, (parseLines ls).1 = ls.filterMap goodLine ∧
           (parseLines ls).2 = ls.countP badLine) ∧
    (∀ l rest, (pyStrip l = "" ∨ startsHash (pyStrip l) = true) →
       parseLines (l :: rest) = parseLines rest) ∧
    (∀ l rest u p, pyStrip l ≠ "" → startsHash (pyStrip l) = false →
       pySplitTab (pyStrip l) = [u, p] →
       parseLines (l :: rest)
         = ((pyStrip u, pyStrip p) :: (parseLines rest).1, (parseLines rest).2)) ∧
    (∀ l rest, pyStrip l ≠ "" → startsHash (pyStrip l) = false →
       (pySplitTab (pyStrip l)).length ≠ 2 →
       parseLines (l :: rest) = ((parseLines rest).1, (parseLines rest).2 + 1)) := by
  refine ⟨rfl, fun ls => rfl, parseLines_characterisation, ?_, ?_, ?_⟩
  · intro l rest hb
    have hcond : (pyStrip l = "" || startsHash (pyStrip l)) = true := by
      rcases hb with h | h
      · simp [h]
      · simp [h]
    simp [parseLines, hcond]
  · intro l rest u p h1 h2 hsp
    have hcond : (pyStrip l = "" || startsHash (pyStrip l)) = false := by
      simp [h1, h2]
    simp [parseLines, hcond, hsp]
  · intro l rest h1 h2 hlen
    have hcond : (pyStrip l = "" || startsHash (pyStrip l)) = false := by
      simp [h1, h2]
    simp only [parseLines, hcond, Bool.false_eq_true, if_false]
    rcases hsp : pySplitTab (pyStrip l) with _ | ⟨u, _ | ⟨p, _ | _⟩⟩ <;>
      simp_all

/-- Closed instance of `manifest_reader_tolerant`: one comment line and
one three-field malformed line. -/
theorem manifest_reader_tolerant_witness :
    startsHash (pyStrip "# note") = true ∧
    parseLines ["# note"] = parseLines [] ∧
    pyStrip "a\tb\tc" ≠ "" ∧ startsHash (pyStrip "a\tb\tc") = false ∧
    (pySplitTab (pyStrip "a\tb\tc")).length ≠ 2 ∧
    parseLines ["a\tb\tc"] = ((parseLines []).1, (parseLines []).2 + 1) :=
  ⟨by decide, manifest_reader_tolerant.2.2.2.1 "# note" [] (Or.inr (by decide)),
   by decide, by decide, by decide,
   manifest_reader_tolerant.2.2.2.2.2 "a\tb\tc" [] (by decide) (by decide) (by decide)⟩

/-- C4: every drawn batch size lies in the clamped inclusive interval;
with `min_batch=5, max_batch=20` and 7 remaining it lies in `[5,7]`;
and with fewer than `min_batch` remaining the batch takes everything. -/
theorem batch_size_bounds (minB maxB rem r : Nat)
    (hmm : minB ≤ maxB) (hrem : 0 < rem) :
    min minB rem ≤ batchSize minB maxB rem r ∧
    batchSize minB maxB rem r ≤ min maxB rem ∧
    (minB = 5 → maxB = 20 → rem = 7 →
      5 ≤ batchSize minB maxB rem r ∧ batchSize minB maxB rem r ≤ 7) ∧
    (rem < minB → batchSize minB maxB rem r = rem) := by
  have hab : min minB rem ≤ min maxB rem := by omega
  have hmod : r % (min maxB rem - min minB rem + 1)
      ≤ min maxB rem - min minB rem := by
    have h := Nat.mod_lt r (show 0 < min maxB rem - min minB rem + 1 by omega)
    omega
  unfold batchSize randint
  refine ⟨by omega, by omega, ?_, ?_⟩
  · intro h5 h20 h7
    subst h5; subst h20; subst h7
    constructor <;> omega
  · intro hsmall
    have h1 : min minB rem = rem := by omega
    have h2 : min maxB rem = rem := by omega
    rw [h1, h2]
    simp [Nat.sub_self, Nat.mod_one]

/-- Closed instance of `batch_size_bounds` at the spec's own numbers. -/
theorem batch_size_bounds_witness :
    (5 ≤ 20 ∧ 0 < 7) ∧
    (5 ≤ batchSize 5 20 7 123 ∧ batchSize 5 20 7 123 ≤ 7) ∧
    (0 < 3 ∧ 3 < 5 ∧ batchSize 5 20 3 99 = 3) :=
  ⟨⟨by decide, by decide⟩,
   (batch_size_bounds 5 20 7 123 (by decide) (by decide)).2.2.1 rfl rfl rfl,
   ⟨by decide, by decide,
    (batch_size_bounds 5 20 3 99 (by decide) (by decide)).2.2.2 (by decide)⟩⟩

/-- C9 counterexample: the code removes only the literal `.json`
substring, so a geometry destination `geom.kml` keeps its extension,
while the spec's extension-stripping rule would give `geom`; and a stem
containing `.json` loses those characters anywhere, not only at the end. -/
theorem resource_id_not_extension_strip :
    proposalId "geom.kml" = "geom.kml" ∧
    resourceIdSpec "geom.kml" = "geom" ∧
    proposalId "geom.kml" ≠ resourceIdSpec "geom.kml" ∧
    proposalId "a.json.json" = "a" ∧
    resourceIdSpec "a.json.json" = "a.json" ∧
    proposalId "a.json.json" ≠ resourceIdSpec "a.json.json" := by
  refine ⟨rfl, rfl, ?_, rfl, rfl, ?_⟩ <;> decide

theorem should_redownload_no_fields (tsData : List (String × TS))
    (pj : String → Option Jobj) (fs : FS) (p content : String) (cur : TS)
    (hfind : fs.find p = some content)
    (hidx : lookupTS tsData (proposalId p) = some cur)
    (hfields : ∀ obj, pj content = some obj → firstTsField obj = none) :
    should_redownload tsData pj fs p = false := by
  cases tsData with
  | nil => simp [lookupTS] at hidx
  | cons kv t =>
    simp only [should_redownload, List.isEmpty_cons, Bool.false_eq_true, if_false, hidx, hfind]
    cases hobj : pj content with
    | none => simp
    | some obj => simp [hfields obj hobj]

/-- C1 (amended): a present, non-empty, valid cached artifact whose
resource id is in the Staleness Index but whose content carries none of
the recognised timestamp field names is classified *skip*, not
force-refresh — the extraction falls through every `return True` path of
`_should_redownload_file`. -/
theorem missing_ts_fields_skip (ct : String) (pj : String → Option Jobj)
    (tsData : List (String × TS)) (fs : FS) (p content : String) (cur : TS)
    (hfind : fs.find p = some content) (hne : 0 < content.length)
    (hvalid : contentValid ct pj content = true)
    (hidx : lookupTS tsData (proposalId p) = some cur)
    (hfields : ∀ obj, pj content = some obj → firstTsField obj = none) :
    classify ct pj tsData fs p = .skip := by
  have hfe : file_exists fs p = true := by
    simp only [file_exists, hfind]
    simpa using hne
  have hval : validate_file_content ct pj fs p = true := by
    simp [validate_file_content, hfind, hvalid]
  have hred : should_redownload tsData pj fs p = false :=
    should_redownload_no_fields tsData pj fs p content cur hfind hidx hfields
  simp [classify, hfe, hval, hred]

/-- C1 counterexample: the concrete situation of the claim — cached
artifact present, non-empty, valid, Staleness Index entry present, no
recognised timestamp field — classifies `skip`, not `forceRefresh`. -/
theorem missing_ts_fields_cex :
    file_exists [("p1.json", "OBJ")] "p1.json" = true ∧
    validate_file_content "json" pjSample [("p1.json", "OBJ")] "p1.json" = true ∧
    lookupTS [("p1", TS.good 5)] (proposalId "p1.json") = some (TS.good 5) ∧
    pjSample "OBJ" = some [] ∧
    firstTsField [] = none ∧
    classify "json" pjSample [("p1", TS.good 5)] [("p1.json", "OBJ")] "p1.json"
      = .skip ∧
    classify "json" pjSample [("p1", TS.good 5)] [("p1.json", "OBJ")] "p1.json"
      ≠ .forceRefresh := by
  decide

/-- Closed instance of `missing_ts_fields_skip`. -/
theorem missing_ts_fields_skip_witness :
    FS.find [("q.json", "OBJ")] "q.json" = some "OBJ" ∧
    classify "json" pjSample [("q", TS.good 9)] [("q.json", "OBJ")] "q.json"
      = .skip :=
  ⟨by decide,
   missing_ts_fields_skip "json" pjSample [("q", TS.good 9)] [("q.json", "OBJ")]
     "q.json" "OBJ" (TS.good 9) (by decide) (by decide) (by decide) (by decide)
     (fun obj hobj => by
       have : obj = [] := by
         have h := hobj
         simp [pjSample] at h
         exact h.symm
       simp [this, firstTsField, timestampFields, lookupTS])⟩

/-- C2: with both timestamps extractable and parseable, classification
is force-refresh exactly when the index instant `t1` is strictly later
than the embedded instant `t0`, and skip otherwise. -/
theorem staleness_override_comparison (ct : String) (pj : String → Option Jobj)
    (tsData : List (String × TS)) (fs : FS) (p content : String)
    (cur ex : TS) (obj : Jobj) (t0 t1 : Int)
    (hfind : fs.find p = some content) (hne : 0 < content.length)
    (hvalid : contentValid ct pj content = true)
    (hidx : lookupTS tsData (proposalId p) = some cur)
    (hobj : pj content = some obj)
    (hex : firstTsField obj = some ex)
    (ht1 : parseIso cur = some t1) (ht0 : parseIso ex = some t0) :
    classify ct pj tsData fs p
      = (if t0 < t1 then Classification.forceRefresh else Classification.skip) := by
  have hfe : file_exists fs p = true := by
    simp only [file_exists, hfind]
    simpa using hne
  have hval : validate_file_content ct pj fs p = true := by
    simp [validate_file_content, hfind, hvalid]
  have htr : ex.truthy = true := by
    cases ex <;> simp_all [parseIso, TS.truthy]
  have hred : should_redownload tsData pj fs p = cmpStale cur ex := by
    cases tsData with
    | nil => simp [lookupTS] at hidx
    | cons kv t =>
      simp [should_redownload, hidx, hfind, hobj, hex, htr]
  have hcmp : cmpStale cur ex = decide (t0 < t1) := by
    simp [cmpStale, ht1, ht0]
  by_cases hlt : t0 < t1
  · rw [if_pos hlt]
    simp [classify, hfe, hval, hred, hcmp, hlt]
  · rw [if_neg hlt]
    simp [classify, hfe, hval, hred, hcmp, hlt]

/-- Closed instance of `staleness_override_comparison`: embedded instant
1, index instant 2 → force-refresh. -/
theorem staleness_override_comparison_witness :
    FS.find [("p.json", "TSOBJ")] "p.json" = some "TSOBJ" ∧
    classify "json" pjSample [("p", TS.good 2)] [("p.json", "TSOBJ")] "p.json"
      = (if (1 : Int) < 2 then Classification.forceRefresh else Classification.skip) :=
  ⟨by decide,
   staleness_override_comparison "json" pjSample [("p", TS.good 2)]
     [("p.json", "TSOBJ")] "p.json" "TSOBJ" (TS.good 2) (TS.good 1)
     [("app_updated_on", TS.good 1)] 1 2 (by decide) (by decide) (by decide)
     (by decide) (by decide) (by decide) rfl rfl⟩

/-- C3 counterexample: a 2xx status other than 200 — here 201 with a
body that passes validation and write/rename flags set to succeed — is
classified failed by the Fetch Worker, which tests `status == 200`. -/
theorem fetch_worker_2xx_cex :
    200 ≤ 201 ∧ 201 < 300 ∧
    bodyOkDL "json" pjSample "OBJ" = true ∧
    (download_single "json" pjSample [] "d.json"
      (.reply 201 "OBJ" true "" true)).1 = false := by
  decide

/-- C3 (amended): a status other than exactly 200 is classified failed
with the destination untouched; on 200 the body is validated and a
validation failure is classified failed with the destination untouched;
a 200 reply with a valid body and succeeding write and rename is
classified fetched. -/
theorem fetch_worker_requires_200 (ct : String) (pj : String → Option Jobj)
    (fs : FS) (dest : String) (st : Nat) (body : String) (wOk : Bool)
    (part : String) (rOk : Bool) :
    (st ≠ 200 →
      download_single ct pj fs dest (.reply st body wOk part rOk) = (false, [])) ∧
    (st = 200 → bodyOkDL ct pj body = false →
      download_single ct pj fs dest (.reply st body wOk part rOk) = (false, [])) ∧
    (st = 200 → bodyOkDL ct pj body = true → wOk = true → rOk = true →
      (download_single ct pj fs dest (.reply st body wOk part rOk)).1 = true) := by
  refine ⟨?_, ?_, ?_⟩
  · intro hst
    simp [download_single, hst]
  · intro hst hbad
    simp [download_single, hst, hbad]
  · intro hst hok hw hr
    simp [download_single, hst, hok, hw, hr]

/-- Closed instance of `fetch_worker_requires_200` at status 404. -/
theorem fetch_worker_requires_200_witness :
    (404 : Nat) ≠ 200 ∧
    download_single "json" pjSample [("d.json", "old")] "d.json"
      (.reply 404 "OBJ" true "" true) = (false, []) :=
  ⟨by decide,
   (fetch_worker_requires_200 "json" pjSample [("d.json", "old")] "d.json"
     404 "OBJ" true "" true).1 (by decide)⟩

/-- C6: during one fetch attempt the destination path only ever holds
its old content or the complete response body (never a partial write);
a failed attempt leaves the destination exactly as it was, and a
successful one leaves the complete validated body there. -/
theorem download_single_atomic (ct : String) (pj : String → Option Jobj)
    (fs : FS) (dest : String) (ev : FetchEvent) :
    (∀ s ∈ (download_single ct pj fs dest ev).2,
       FS.find s dest = fs.find dest ∨ FS.find s dest = some ev.bodyOf) ∧
    ((download_single ct pj fs dest ev).1 = false →
       (finalFS fs (download_single ct pj fs dest ev).2).find dest = fs.find dest) ∧
    ((download_single ct pj fs dest ev).1 = true →
       (finalFS fs (download_single ct pj fs dest ev).2).find dest
         = some ev.bodyOf) := by
  have hdt : dest ≠ dest ++ ".tmp" := Ne.symm (temp_ne_dest dest)
  cases ev with
  | netError =>
    refine ⟨?_, ?_, ?_⟩
    · intro s hs
      simp only [download_single, List.mem_singleton] at hs
      subst hs
      exact Or.inl (FS.find_eraseP_ne fs _ dest hdt)
    · intro _
      simpa [download_single, finalFS] using FS.find_eraseP_ne fs _ dest hdt
    · intro h
      simp [download_single] at h
  | reply st body wOk part rOk =>
    by_cases hst : st = 200
    · by_cases hok : bodyOkDL ct pj body = true
      · by_cases hw : wOk = true
        · by_cases hr : rOk = true
          · -- full success: temp written, then renamed onto dest
            have e1 : (fs.setP (dest ++ ".tmp") body).find dest = fs.find dest :=
              FS.find_setP_ne fs _ body dest hdt
            have e2 :
                (((fs.setP (dest ++ ".tmp") body).eraseP (dest ++ ".tmp")).setP dest body).find dest
                  = some body :=
              FS.find_setP_self _ dest body
            refine ⟨?_, ?_, ?_⟩
            · intro s hs
              simp only [download_single, hst, hok, hw, hr, if_true, List.mem_cons,
                List.mem_singleton, List.not_mem_nil, or_false] at hs
              rcases hs with hs | hs
              · subst hs
                exact Or.inl e1
              · subst hs
                exact Or.inr e2
            · intro h
              simp [download_single, hst, hok, hw, hr] at h
            · intro _
              simpa [download_single, hst, hok, hw, hr, finalFS] using e2
          · -- rename fails: temp written then cleaned up
            have hr' : rOk = false := by simpa using hr
            have e1 : (fs.setP (dest ++ ".tmp") body).find dest = fs.find dest :=
              FS.find_setP_ne fs _ body dest hdt
            have e2 :
                ((fs.setP (dest ++ ".tmp") body).eraseP (dest ++ ".tmp")).find dest
                  = fs.find dest := by
              rw [FS.find_eraseP_ne _ _ dest hdt]
              exact e1
            refine ⟨?_, ?_, ?_⟩
            · intro s hs
              simp only [download_single, hst, hok, hw, hr', if_true, Bool.false_eq_true,
                if_false, List.mem_cons, List.mem_singleton, List.not_mem_nil, or_false] at hs
              rcases hs with hs | hs
              · subst hs
                exact Or.inl e1
              · subst hs
                exact Or.inl e2
            · intro _
              simpa [download_single, hst, hok, hw, hr', finalFS] using e2
            · intro h
              simp [download_single, hst, hok, hw, hr'] at h
        · -- temp write fails midway: partial temp content then cleanup
          have hw' : wOk = false := by simpa using hw
          have e1 : (fs.setP (dest ++ ".tmp") part).find dest = fs.find dest :=
            FS.find_setP_ne fs _ part dest hdt
          have e2 :
              ((fs.setP (dest ++ ".tmp") part).eraseP (dest ++ ".tmp")).find dest
                = fs.find dest := by
            rw [FS.find_eraseP_ne _ _ dest hdt]
            exact e1
          refine ⟨?_, ?_, ?_⟩
          · intro s hs
            simp only [download_single, hst, hok, hw', if_true, Bool.false_eq_true,
              if_false, List.mem_cons, List.mem_singleton, List.not_mem_nil, or_false] at hs
            rcases hs with hs | hs
            · subst hs
              exact Or.inl e1
            · subst hs
              exact Or.inl e2
          · intro _
            simpa [download_single, hst, hok, hw', finalFS] using e2
          · intro h
            simp [download_single, hst, hok, hw'] at h
      · -- body fails validation: nothing written
        have hok' : bodyOkDL ct pj body = false := by simpa using hok
        refine ⟨?_, ?_, ?_⟩
        · intro s hs
          simp [download_single, hst, hok'] at hs
        · intro _
          simp [download_single, hst, hok', finalFS]
        · intro h
          simp [download_single, hst, hok'] at h
    · -- not status 200: nothing written
      refine ⟨?_, ?_, ?_⟩
      · intro s hs
        simp [download_single, hst] at hs
      · intro _
        simp [download_single, hst, finalFS]
      · intro h
        simp [download_single, hst] at h

/-- Closed instance of `download_single_atomic`: a successful fetch
overwrites `d.json` with the full body; a network error leaves it. -/
theorem download_single_atomic_witness :
    ((download_single "json" pjSample [("d.json", "old")] "d.json"
        (.reply 200 "OBJ" true "" true)).1 = true ∧
      (finalFS [("d.json", "old")]
        (download_single "json" pjSample [("d.json", "old")] "d.json"
          (.reply 200 "OBJ" true "" true)).2).find "d.json"
        = some (FetchEvent.reply 200 "OBJ" true "" true).bodyOf) ∧
    ((download_single "json" pjSample [("d.json", "old")] "d.json"
        FetchEvent.netError).1 = false ∧
      (finalFS [("d.json", "old")]
        (download_single "json" pjSample [("d.json", "old")] "d.json"
          FetchEvent.netError).2).find "d.json"
        = FS.find [("d.json", "old")] "d.json") :=
  ⟨⟨by decide,
    (download_single_atomic "json" pjSample [("d.json", "old")] "d.json"
      (.reply 200 "OBJ" true "" true)).2.2 (by decide)⟩,
   ⟨by decide,
    (download_single_atomic "json" pjSample [("d.json", "old")] "d.json"
      FetchEvent.netError).2.1 (by decide)⟩⟩

theorem holdingCount_replicate (k : Nat) :
    holdingCount (List.replicate k .pending) = 0 := by
  induction k with
  | zero => rfl
  | succ n ih =>
    simp only [holdingCount, List.replicate_succ, List.countP_cons] at ih ⊢
    simp [ih]

theorem holdingCount_set_acquire (ws : List WStatus) (i : Nat)
    (h : ws.get? i = some .pending) :
    holdingCount (ws.set i .holding) = holdingCount ws + 1 := by
  induction ws generalizing i with
  | nil => simp at h
  | cons w rest ih =>
    cases i with
    | zero =>
      have hw : w = .pending := by simpa using h
      subst hw
      simp [holdingCount, List.countP_cons]
    | succ n =>
      have h' : rest.get? n = some .pending := h
      show holdingCount (w :: rest.set n .holding) = holdingCount (w :: rest) + 1
      have hih := ih n h'
      simp only [holdingCount] at hih
      simp only [holdingCount, List.countP_cons]
      omega

theorem holdingCount_set_release (ws : List WStatus) (i : Nat)
    (h : ws.get? i = some .holding) :
    holdingCount (ws.set i .finished) + 1 = holdingCount ws := by
  induction ws generalizing i with
  | nil => simp at h
  | cons w rest ih =>
    cases i with
    | zero =>
      have hw : w = .holding := by simpa using h
      subst hw
      simp [holdingCount, List.countP_cons]
    | succ n =>
      have h' : rest.get? n = some .holding := h
      show holdingCount (w :: rest.set n .finished) + 1 = holdingCount (w :: rest)
      simp only [holdingCount, List.countP_cons]
      have := ih n h'
      simp only [holdingCount] at this
      omega

theorem gate_invariant (n k : Nat) (s : GateState) (h : GateReach n k s) :
    holdingCount s.ws + s.avail = n := by
  induction h with
  | refl => simp [gateInit, holdingCount_replicate]
  | tail hreach hstep ih =>
    cases hstep with
    | acquire a ws i hget =>
      have hc := holdingCount_set_acquire ws i hget
      simp only at ih ⊢
      omega
    | release a ws i hget =>
      have hc := holdingCount_set_release ws i hget
      simp only at ih ⊢
      omega

/-- C8: in every state the cooperative scheduler can reach, at most
`max_concurrent = n` fetch workers are past the concurrency gate with a
request in flight; the gate model acquires before the request and
releases on every exit (the transitions of `GateStep`). -/
theorem gate_concurrency_bound (n k : Nat) (s : GateState)
    (h : GateReach n k s) : holdingCount s.ws ≤ n := by
  have := gate_invariant n k s h
  omega

/-- Closed instance of `gate_concurrency_bound`: two slots, three
workers, one acquisition performed. -/
theorem gate_concurrency_bound_witness :
    GateReach 2 3 ⟨1, [WStatus.holding, WStatus.pending, WStatus.pending]⟩ ∧
    holdingCount [WStatus.holding, WStatus.pending, WStatus.pending] ≤ 2 := by
  have hstep : GateStep (gateInit 2 3)
      ⟨1, [WStatus.holding, WStatus.pending, WStatus.pending]⟩ :=
    GateStep.acquire 1 [WStatus.pending, WStatus.pending, WStatus.pending] 0 rfl
  have hreach : GateReach 2 3 ⟨1, [WStatus.holding, WStatus.pending, WStatus.pending]⟩ :=
    Relation.ReflTransGen.single hstep
  exact ⟨hreach, gate_concurrency_bound 2 3 _ hreach⟩

theorem filter_counts (ct : String) (pj : String → Option Jobj)
    (tsData : List (String × TS)) (fs : FS) (tasks : List (String × String)) :
    (filter_existing_files ct pj tsData fs tasks).1.length
      + (filter_existing_files ct pj tsData fs tasks).2.1 = tasks.length ∧
    (filter_existing_files ct pj tsData fs tasks).2.2
      ≤ (filter_existing_files ct pj tsData fs tasks).1.length := by
  induction tasks with
  | nil => exact ⟨rfl, Nat.le_refl 0⟩
  | cons t rest ih =>
    rcases hc : classify ct pj tsData fs t.2 with _ | _ | _ <;>
      simp only [filter_existing_files, hc] <;>
      simp only [List.length_cons] <;> omega

theorem runDownloads_counts (ct : String) (pj : String → Option Jobj)
    (pairs : List ((String × String) × FetchEvent)) (fs : FS) :
    (runDownloads ct pj fs pairs).2.1 + (runDownloads ct pj fs pairs).2.2
      = pairs.length := by
  induction pairs generalizing fs with
  | nil => rfl
  | cons te rest ih =>
    obtain ⟨t, ev⟩ := te
    simp only [runDownloads]
    have := ih (finalFS fs (download_single ct pj fs t.2 ev).2)
    by_cases hd : (download_single ct pj fs t.2 ev).1 = true <;>
      simp [hd, List.length_cons] <;> omega

/-- C10: at the end of a run, fetched + skipped + failed equals the
number of tasks parsed from the manifest, and the force-refreshed
counter (incremented at classification time) is bounded by the tasks
that went down the fetch path and hence ended fetched or failed. -/
theorem run_report_conservation (ct : String) (pj : String → Option Jobj)
    (tsData : List (String × TS)) (fs : FS) (ls : List String)
    (evs : List FetchEvent)
    (hlen : (filter_existing_files ct pj tsData fs (parseLines ls).1).1.length
      ≤ evs.length) :
    (runOnce ct pj tsData fs (parseLines ls).1 evs).downloaded
        + (runOnce ct pj tsData fs (parseLines ls).1 evs).skipped
        + (runOnce ct pj tsData fs (parseLines ls).1 evs).failed
      = (parseLines ls).1.length ∧
    (runOnce ct pj tsData fs (parseLines ls).1 evs).force
      ≤ (runOnce ct pj tsData fs (parseLines ls).1 evs).downloaded
        + (runOnce ct pj tsData fs (parseLines ls).1 evs).failed := by
  obtain ⟨hf1, hf2⟩ := filter_counts ct pj tsData fs (parseLines ls).1
  have hrd := runDownloads_counts ct pj
    ((filter_existing_files ct pj tsData fs (parseLines ls).1).1.zip evs) fs
  have hzip : ((filter_existing_files ct pj tsData fs (parseLines ls).1).1.zip evs).length
      = (filter_existing_files ct pj tsData fs (parseLines ls).1).1.length := by
    rw [List.length_zip]
    omega
  rw [hzip] at hrd
  simp only [runOnce] at *
  constructor <;> omega

/-- Closed instance of `run_report_conservation`: one manifest line, a
network error, counters 1 + 0 + 0. -/
theorem run_report_conservation_witness :
    (filter_existing_files "json" pjSample [] []
        (parseLines ["u\tp.json"]).1).1.length ≤ 1 ∧
    ((runOnce "json" pjSample [] [] (parseLines ["u\tp.json"]).1
          [FetchEvent.netError]).downloaded
        + (runOnce "json" pjSample [] [] (parseLines ["u\tp.json"]).1
          [FetchEvent.netError]).skipped
        + (runOnce "json" pjSample [] [] (parseLines ["u\tp.json"]).1
          [FetchEvent.netError]).failed
      = (parseLines ["u\tp.json"]).1.length ∧
    (runOnce "json" pjSample [] [] (parseLines ["u\tp.json"]).1
        [FetchEvent.netError]).force
      ≤ (runOnce "json" pjSample [] [] (parseLines ["u\tp.json"]).1
          [FetchEvent.netError]).downloaded
        + (runOnce "json" pjSample [] [] (parseLines ["u\tp.json"]).1
          [FetchEvent.netError]).failed) :=
  ⟨by decide,
   run_report_conservation "json" pjSample [] [] ["u\tp.json"]
     [FetchEvent.netError] (by decide)⟩

theorem hasSub_empty_kml : hasSub "" "<kml" = false := by decide

theorem hasSub_empty_placemark : hasSub "" "<placemark" = false := by decide

theorem bodyOkDL_json (pj : String → Option Jobj) (b : String) :
    bodyOkDL "json" pj b = (pj b).isSome := by
  simp [bodyOkDL]

theorem bodyOkDL_kml (pj : String → Option Jobj) (b : String) :
    bodyOkDL "kml" pj b = (hasSub b "<kml" || hasSub b "<placemark") := by
  have h : ("kml" : String) ≠ "json" := by decide
  simp [bodyOkDL, h]

theorem contentValid_json (pj : String → Option Jobj) (b : String) :
    contentValid "json" pj b = (pj b).isSome := by
  simp [contentValid]

theorem contentValid_kml (pj : String → Option Jobj) (b : String) :
    contentValid "kml" pj b = (hasSub b "<kml" || hasSub b "<placemark") := by
  have h : ("kml" : String) ≠ "json" := by decide
  simp [contentValid, h]

theorem bodyOk_good (ct : String) (pj : String → Option Jobj) (b : String)
    (hct : ct = "json" ∨ ct = "kml") (hpj : pj "" = none)
    (hb : bodyOkDL ct pj b = true) :
    contentValid ct pj b = true ∧ b ≠ "" := by
  rcases hct with h | h <;> subst h
  · rw [bodyOkDL_json] at hb
    refine ⟨by rw [contentValid_json]; exact hb, ?_⟩
    intro hb0
    rw [hb0, hpj] at hb
    simp at hb
  · rw [bodyOkDL_kml] at hb
    refine ⟨by rw [contentValid_kml]; exact hb, ?_⟩
    intro hb0
    rw [hb0, hasSub_empty_kml, hasSub_empty_placemark] at hb
    simp at hb

theorem goodFile_iff (ct : String) (pj : String → Option Jobj) (fs : FS) (p : String) :
    goodFile ct pj fs p = true ↔
      ∃ c, fs.find p = some c ∧ 0 < c.length ∧ contentValid ct pj c = true := by
  unfold goodFile file_exists validate_file_content
  cases h : fs.find p with
  | none => simp
  | some c =>
    simp only [Bool.and_eq_true, decide_eq_true_eq]
    constructor
    · rintro ⟨h1, h2⟩
      exact ⟨c, rfl, h1, h2⟩
    · rintro ⟨c', hc', h1, h2⟩
      cases hc'
      exact ⟨h1, h2⟩

theorem download_success_final (ct : String) (pj : String → Option Jobj)
    (fs : FS) (dest : String) (ev : FetchEvent)
    (h : (download_single ct pj fs dest ev).1 = true) :
    bodyOkDL ct pj ev.bodyOf = true ∧
    finalFS fs (download_single ct pj fs dest ev).2
      = ((fs.setP (dest ++ ".tmp") ev.bodyOf).eraseP (dest ++ ".tmp")).setP dest
          ev.bodyOf := by
  cases ev with
  | netError => simp [download_single] at h
  | reply st body wOk part rOk =>
    by_cases hst : st = 200
    · by_cases hok : bodyOkDL ct pj body = true
      · by_cases hw : wOk = true
        · by_cases hr : rOk = true
          · exact ⟨hok, by simp [download_single, hst, hok, hw, hr, finalFS,
              FetchEvent.bodyOf]⟩
          · have hr' : rOk = false := by simpa using hr
            simp [download_single, hst, hok, hw, hr'] at h
        · have hw' : wOk = false := by simpa using hw
          simp [download_single, hst, hok, hw'] at h
      · have hok' : bodyOkDL ct pj body = false := by simpa using hok
        simp [download_single, hst, hok'] at h
    · simp [download_single, hst] at h

theorem find_final_success (fs : FS) (dest b q : String)
    (hq1 : q ≠ dest) (hq2 : q ≠ dest ++ ".tmp") :
    (((fs.setP (dest ++ ".tmp") b).eraseP (dest ++ ".tmp")).setP dest b).find q
      = fs.find q := by
  rw [FS.find_setP_ne _ _ _ _ hq1, FS.find_eraseP_ne _ _ _ hq2,
    FS.find_setP_ne _ _ _ _ hq2]

theorem good_at_dest (ct : String) (pj : String → Option Jobj)
    (hct : ct = "json" ∨ ct = "kml") (hpj : pj "" = none)
    (fs : FS) (dest b : String) (hb : bodyOkDL ct pj b = true) :
    goodFile ct pj
      (((fs.setP (dest ++ ".tmp") b).eraseP (dest ++ ".tmp")).setP dest b)
      dest = true := by
  obtain ⟨hv, hne⟩ := bodyOk_good ct pj b hct hpj hb
  rw [goodFile_iff]
  exact ⟨b, FS.find_setP_self _ dest b, str_len_pos b hne, hv⟩

theorem good_preserved_success (ct : String) (pj : String → Option Jobj)
    (hct : ct = "json" ∨ ct = "kml") (hpj : pj "" = none)
    (fs : FS) (dest b q : String)
    (hb : bodyOkDL ct pj b = true) (hq : q ≠ dest ++ ".tmp")
    (hg : goodFile ct pj fs q = true) :
    goodFile ct pj
      (((fs.setP (dest ++ ".tmp") b).eraseP (dest ++ ".tmp")).setP dest b)
      q = true := by
  by_cases hqd : q = dest
  · subst hqd
    exact good_at_dest ct pj hct hpj fs q b hb
  · rw [goodFile_iff] at hg ⊢
    obtain ⟨c, hfind, hlen, hval⟩ := hg
    exact ⟨c, by rw [find_final_success fs dest b q hqd hq]; exact hfind, hlen, hval⟩

theorem runDownloads_good (ct : String) (pj : String → Option Jobj)
    (hct : ct = "json" ∨ ct = "kml") (hpj : pj "" = none) :
    ∀ (pairs : List ((String × String) × FetchEvent)) (fs : FS),
      (runDownloads ct pj fs pairs).2.2 = 0 →
      (∀ q, (∀ te ∈ pairs, q ≠ te.1.2 ++ ".tmp") → goodFile ct pj fs q = true →
         goodFile ct pj (runDownloads ct pj fs pairs).1 q = true) ∧
      (∀ te ∈ pairs, (∀ te2 ∈ pairs, te.1.2 ≠ te2.1.2 ++ ".tmp") →
         goodFile ct pj (runDownloads ct pj fs pairs).1 te.1.2 = true) := by
  intro pairs
  induction pairs with
  | nil =>
    intro fs _
    exact ⟨fun q _ hg => hg, fun te hte => absurd hte (List.not_mem_nil te)⟩
  | cons hd rest ih =>
    obtain ⟨t, ev⟩ := hd
    intro fs hf
    simp only [runDownloads] at hf ⊢
    have hdl : (download_single ct pj fs t.2 ev).1 = true := by
      by_cases hb : (download_single ct pj fs t.2 ev).1 = true
      · exact hb
      · exfalso
        simp [hb] at hf
    have hrestf :
        (runDownloads ct pj (finalFS fs (download_single ct pj fs t.2 ev).2) rest).2.2
          = 0 := by
      simpa [hdl] using hf
    obtain ⟨hok, hfin⟩ := download_success_final ct pj fs t.2 ev hdl
    have ihr := ih (finalFS fs (download_single ct pj fs t.2 ev).2) hrestf
    constructor
    · intro q hq hg
      have hq_hd : q ≠ t.2 ++ ".tmp" := hq (t, ev) (List.mem_cons_self _ _)
      have hg1 : goodFile ct pj (finalFS fs (download_single ct pj fs t.2 ev).2) q
          = true := by
        rw [hfin]
        exact good_preserved_success ct pj hct hpj fs t.2 _ q hok hq_hd hg
      exact ihr.1 q (fun te hte => hq te (List.mem_cons_of_mem _ hte)) hg1
    · intro te hte hsep
      rcases List.mem_cons.mp hte with heq | hmem
      · subst heq
        have hg1 : goodFile ct pj (finalFS fs (download_single ct pj fs t.2 ev).2) t.2
            = true := by
          rw [hfin]
          exact good_at_dest ct pj hct hpj fs t.2 _ hok
        exact ihr.1 t.2
          (fun te2 hte2 => hsep te2 (List.mem_cons_of_mem _ hte2)) hg1
      · exact ihr.2 te hmem (fun te2 hte2 => hsep te2 (List.mem_cons_of_mem _ hte2))

theorem classify_nil_ts (ct : String) (pj : String → Option Jobj)
    (fs : FS) (p : String) :
    classify ct pj [] fs p = .skip ↔ goodFile ct pj fs p = true := by
  have hred : should_redownload [] pj fs p = false := rfl
  unfold classify goodFile
  rw [hred]
  by_cases hfe : file_exists fs p = true <;>
    by_cases hv : validate_file_content ct pj fs p = true <;>
    simp [hfe, hv]

theorem filter_mem_sub (ct : String) (pj : String → Option Jobj)
    (tsData : List (String × TS)) (fs : FS) :
    ∀ (tasks : List (String × String)) (t : String × String),
      t ∈ (filter_existing_files ct pj tsData fs tasks).1 → t ∈ tasks := by
  intro tasks
  induction tasks with
  | nil => intro t ht; simp [filter_existing_files] at ht
  | cons x rest ih =>
    intro t ht
    rcases hc : classify ct pj tsData fs x.2 with _ | _ | _ <;>
      simp only [filter_existing_files, hc] at ht
    · exact List.mem_cons_of_mem _ (ih t ht)
    · rcases List.mem_cons.mp ht with rfl | hm
      · exact List.mem_cons_self _ _
      · exact List.mem_cons_of_mem _ (ih t hm)
    · rcases List.mem_cons.mp ht with rfl | hm
      · exact List.mem_cons_self _ _
      · exact List.mem_cons_of_mem _ (ih t hm)

theorem filter_skip_or_mem (ct : String) (pj : String → Option Jobj)
    (tsData : List (String × TS)) (fs : FS) :
    ∀ (tasks : List (String × String)) (t : String × String), t ∈ tasks →
      classify ct pj tsData fs t.2 = .skip ∨
        t ∈ (filter_existing_files ct pj tsData fs tasks).1 := by
  intro tasks
  induction tasks with
  | nil => intro t ht; exact absurd ht (List.not_mem_nil t)
  | cons x rest ih =>
    intro t ht
    rcases List.mem_cons.mp ht with rfl | hm
    · rcases hc : classify ct pj tsData fs t.2 with _ | _ | _
      · exact Or.inl rfl
      · refine Or.inr ?_
        simp only [filter_existing_files, hc]
        exact List.mem_cons_self _ _
      · refine Or.inr ?_
        simp only [filter_existing_files, hc]
        exact List.mem_cons_self _ _
    · rcases ih t hm with hskip | hmem
      · exact Or.inl hskip
      · refine Or.inr ?_
        rcases hc : classify ct pj tsData fs x.2 with _ | _ | _ <;>
          simp only [filter_existing_files, hc]
        · exact hmem
        · exact List.mem_cons_of_mem _ hmem
        · exact List.mem_cons_of_mem _ hmem

theorem filter_all_skip (ct : String) (pj : String → Option Jobj)
    (tsData : List (String × TS)) (fs : FS) :
    ∀ (tasks : List (String × String)),
      (∀ t ∈ tasks, classify ct pj tsData fs t.2 = .skip) →
      filter_existing_files ct pj tsData fs tasks = ([], tasks.length, 0) := by
  intro tasks
  induction tasks with
  | nil => intro _; rfl
  | cons x rest ih =>
    intro h
    have hx := h x (List.mem_cons_self _ _)
    have hr := ih (fun t ht => h t (List.mem_cons_of_mem _ ht))
    simp only [filter_existing_files, hx, hr, List.length_cons]

theorem zip_cover {α β : Type} :
    ∀ (l1 : List α) (l2 : List β), l1.length ≤ l2.length →
      ∀ a ∈ l1, ∃ b, (a, b) ∈ l1.zip l2 := by
  intro l1
  induction l1 with
  | nil => intro l2 _ a ha; exact absurd ha (List.not_mem_nil a)
  | cons x xs ih =>
    intro l2 h a ha
    cases l2 with
    | nil => simp at h
    | cons y ys =>
      rcases List.mem_cons.mp ha with rfl | hmem
      · exact ⟨y, List.mem_cons_self _ _⟩
      · obtain ⟨b, hb⟩ := ih ys (by simpa using h) a hmem
        exact ⟨b, List.mem_cons_of_mem _ hb⟩

/-- C7 (amended): for a manifest in which no destination path equals
another task's destination followed by `.tmp`, a run of kind json/kml
with no Staleness Index in which no task failed leaves a disk state on
which a second filtering pass classifies every task skip and schedules
zero fetches. -/
theorem second_run_skips_everything (ct : String) (pj : String → Option Jobj)
    (fs : FS) (tasks : List (String × String)) (evs : List FetchEvent)
    (hct : ct = "json" ∨ ct = "kml") (hpj : pj "" = none)
    (hsep : ∀ t1 ∈ tasks, ∀ t2 ∈ tasks, t1.2 ≠ t2.2 ++ ".tmp")
    (hlen : (filter_existing_files ct pj [] fs tasks).1.length ≤ evs.length)
    (hfail : (runOnce ct pj [] fs tasks evs).failed = 0) :
    filter_existing_files ct pj [] (runOnce ct pj [] fs tasks evs).fs tasks
      = ([], tasks.length, 0) := by
  have hf0 :
      (runDownloads ct pj fs
        ((filter_existing_files ct pj [] fs tasks).1.zip evs)).2.2 = 0 := hfail
  have hfs : (runOnce ct pj [] fs tasks evs).fs
      = (runDownloads ct pj fs
          ((filter_existing_files ct pj [] fs tasks).1.zip evs)).1 := rfl
  obtain ⟨hpres, hproc⟩ := runDownloads_good ct pj hct hpj
    ((filter_existing_files ct pj [] fs tasks).1.zip evs) fs hf0
  have hmem_fil : ∀ te ∈ (filter_existing_files ct pj [] fs tasks).1.zip evs,
      te.1 ∈ tasks := by
    intro te hte
    obtain ⟨t, e⟩ := te
    exact filter_mem_sub ct pj [] fs tasks t (List.of_mem_zip hte).1
  apply filter_all_skip
  intro t ht
  rw [classify_nil_ts, hfs]
  rcases filter_skip_or_mem ct pj [] fs tasks t ht with hskip | hmem
  · have hg : goodFile ct pj fs t.2 = true := (classify_nil_ts ct pj fs t.2).mp hskip
    exact hpres t.2 (fun te hte => hsep t ht te.1 (hmem_fil te hte)) hg
  · obtain ⟨e, he⟩ := zip_cover (filter_existing_files ct pj [] fs tasks).1 evs hlen t hmem
    exact hproc (t, e) he (fun te2 hte2 => hsep t ht te2.1 (hmem_fil te2 hte2))

/-- C7 counterexample: a manifest whose first destination is the second
destination plus `.tmp`. The first run fetches both successfully (no
task failed), but the second task's temp write and rename destroy the
first task's destination, so the second run schedules a fetch. -/
theorem idempotence_cex :
    (runOnce "json" pjSample [] []
        [("u", "x.json.tmp"), ("v", "x.json")]
        [FetchEvent.reply 200 "OBJ" true "" true,
         FetchEvent.reply 200 "OBJ" true "" true]).failed = 0 ∧
    (filter_existing_files "json" pjSample []
        (runOnce "json" pjSample [] []
          [("u", "x.json.tmp"), ("v", "x.json")]
          [FetchEvent.reply 200 "OBJ" true "" true,
           FetchEvent.reply 200 "OBJ" true "" true]).fs
        [("u", "x.json.tmp"), ("v", "x.json")]).1 ≠ [] := by
  decide

/-- Closed instance of `second_run_skips_everything`. -/
theorem second_run_skips_everything_witness :
    (runOnce "json" pjSample [] [] [("u", "p.json")]
        [FetchEvent.reply 200 "OBJ" true "" true]).failed = 0 ∧
    filter_existing_files "json" pjSample []
        (runOnce "json" pjSample [] [] [("u", "p.json")]
          [FetchEvent.reply 200 "OBJ" true "" true]).fs
        [("u", "p.json")]
      = ([], 1, 0) :=
  ⟨by decide,
   second_run_skips_everything "json" pjSample [] [("u", "p.json")]
     [FetchEvent.reply 200 "OBJ" true "" true] (Or.inl rfl) rfl
     (by decide) (by decide) (by decide)⟩

theorem stripJsonOcc_cons_not_pre (c : Char) (l : List Char)
    (h : List.isPrefixOf ['.', 'j', 's', 'o', 'n'] (c :: l) = false) :
    stripJsonOcc (c :: l) = c :: stripJsonOcc l := by
  conv_lhs => rw [stripJsonOcc.eq_def]
  split <;> simp_all [List.isPrefixOf]

theorem stripJsonOcc_cons_ne_dot (c : Char) (l : List Char) (hc : c ≠ '.') :
    stripJsonOcc (c :: l) = c :: stripJsonOcc l := by
  apply stripJsonOcc_cons_not_pre
  simp [List.isPrefixOf]
  intro h
  exact absurd h.symm hc

theorem hasOcc_cons (pat : List Char) (c : Char) (l : List Char) :
    hasOcc pat (c :: l) = (pat.isPrefixOf (c :: l) || hasOcc pat l) := by
  simp [hasOcc, List.tails]

/-- C9 (amended): the resource id is the destination filename with every
occurrence of the literal five-character substring `.json` removed — the
extension-stripping view holds only for a dot-free stem followed by
`.json`, while a filename containing no `.json` at all (such as one with
a `.kml` extension) is used whole, extension included. -/
theorem proposalId_json_removal :
    (∀ stem : List Char, '.' ∉ stem →
       stripJsonOcc (stem ++ ['.', 'j', 's', 'o', 'n']) = stem) ∧
    (∀ f : List Char, hasOcc ['.', 'j', 's', 'o', 'n'] f = false →
       stripJsonOcc f = f) ∧
    proposalId "data/p1.json" = "p1" ∧
    proposalId "geom.kml" = "geom.kml" ∧
    proposalId "a.json.json" = "a" := by
  refine ⟨?_, ?_, by decide, by decide, by decide⟩
  · intro stem h
    induction stem with
    | nil => rfl
    | cons c rest ih =>
      have hc : c ≠ '.' := by
        intro hcc
        exact h (by rw [hcc]; exact List.mem_cons_self _ _)
      rw [List.cons_append, stripJsonOcc_cons_ne_dot c _ hc,
        ih (fun hm => h (List.mem_cons_of_mem _ hm))]
  · intro f hOcc
    induction f with
    | nil => rfl
    | cons c rest ih =>
      rw [hasOcc_cons] at hOcc
      have h1 : List.isPrefixOf ['.', 'j', 's', 'o', 'n'] (c :: rest) = false := by
        cases hp : List.isPrefixOf ['.', 'j', 's', 'o', 'n'] (c :: rest) with
        | false => rfl
        | true => rw [hp] at hOcc; simp at hOcc
      have h2 : hasOcc ['.', 'j', 's', 'o', 'n'] rest = false := by
        cases hp : hasOcc ['.', 'j', 's', 'o', 'n'] rest with
        | false => rfl
        | true => rw [hp] at hOcc; simp at hOcc
      rw [stripJsonOcc_cons_not_pre c rest h1, ih h2]

/-- Closed instance of `proposalId_json_removal`: dot-free stem `p1`
with the `.json` extension; `.kml` filename untouched. -/
theorem proposalId_json_removal_witness :
    ('.' ∉ ['p', '1']) ∧
    stripJsonOcc (['p', '1'] ++ ['.', 'j', 's', 'o', 'n']) = ['p', '1'] ∧
    hasOcc ['.', 'j', 's', 'o', 'n'] "geom.kml".data = false ∧
    stripJsonOcc "geom.kml".data = "geom.kml".data :=
  ⟨by decide, proposalId_json_removal.1 ['p', '1'] (by decide),
   by decide, proposalId_json_removal.2.1 "geom.kml".data (by decide)⟩

end Fetcher
